import Mathlib

/-!
Verification of the bounded-concurrency processing pipeline of the
`extractor` service (Go sources: `ocr.go`, `summary.go`, and the async job
queue file).  Pure control logic is embedded as Lean functions; shared
mutable state (circuit breaker, job queue) is embedded as explicit state
records, and the concurrent job-queue behaviour as a small-step relation.
Time is modelled as a natural number of seconds; external collaborators
(Tesseract, pdftoppm, the LLM endpoint, memory sampling) are modelled as
function parameters returning `Except`/`Bool`, as the spec directs.
-/

section CircuitBreaker

/-- Circuit breaker states, from `type CircuitState int32` and the constants
`Closed`, `Open`, `HalfOpen` in `ocr.go`. -/
inductive CircuitState where
  | Closed
  | Open
  | HalfOpen
deriving DecidableEq

/-- The circuit breaker's persisted fields: the globals `circuitState`,
`failures` and `lastFailureTime` in `ocr.go`.  `lastFailureTime` is a
timestamp in seconds. -/
structure Breaker where
  circuitState : CircuitState
  failures : Nat
  lastFailureTime : Nat
deriving DecidableEq

/-- Embeds `isCircuitOpen` (src/ocr.go lines 96-113).  In the `Open` state the
Go code tests `time.Since(lastFailureTime) > 10*time.Second` and, when the
window has elapsed, compare-and-swaps the state from `Open` to `HalfOpen` and
returns false; otherwise it returns true.  `HalfOpen` and the default
(`Closed`) branch return false without touching the state.  The returned pair
is (result, updated breaker state). -/
def isCircuitOpen (now : Nat) (b : Breaker) : Bool × Breaker :=
  match b.circuitState with
  | .Open =>
    if 10 < now - b.lastFailureTime then
      (false, { b with circuitState := .HalfOpen })
    else
      (true, b)
  | .HalfOpen => (false, b)
  | .Closed => (false, b)

/-- Embeds `recordFailure` (src/ocr.go lines 115-125): increment the failure
counter, stamp the failure time with the current time, and once the counter
has reached 3 set the state to `Open` and reset the counter to 0. -/
def recordFailure (now : Nat) (b : Breaker) : Breaker :=
  let f := b.failures + 1
  if 3 ≤ f then
    { circuitState := .Open, failures := 0, lastFailureTime := now }
  else
    { circuitState := b.circuitState, failures := f, lastFailureTime := now }

/-- Embeds `recordSuccess` (src/ocr.go lines 127-131): unconditionally store
`Closed` and reset the failure counter; `lastFailureTime` is not written. -/
def recordSuccess (b : Breaker) : Breaker :=
  { circuitState := .Closed, failures := 0, lastFailureTime := b.lastFailureTime }

end CircuitBreaker

/-- C4: starting from `Closed` with failure counter 0, the first two calls to
`recordFailure` leave the state `Closed`, and the third call trips the breaker:
the state becomes `Open`, the failure counter is reset to 0 at that moment, and
`isCircuitOpen` returns true for any query time within the 10-second window of
the third failure. -/
theorem circuit_trips_after_three_failures
    (t0 t1 t2 t3 now : Nat) (hnow : now ≤ t3 + 10) :
    (recordFailure t1 ⟨.Closed, 0, t0⟩).circuitState = .Closed ∧
    (recordFailure t2 (recordFailure t1 ⟨.Closed, 0, t0⟩)).circuitState = .Closed ∧
    recordFailure t3 (recordFailure t2 (recordFailure t1 ⟨.Closed, 0, t0⟩))
      = ⟨.Open, 0, t3⟩ ∧
    (isCircuitOpen now
      (recordFailure t3 (recordFailure t2 (recordFailure t1 ⟨.Closed, 0, t0⟩)))).1
      = true := by
  have h3 : recordFailure t3 (recordFailure t2 (recordFailure t1 ⟨.Closed, 0, t0⟩))
      = (⟨.Open, 0, t3⟩ : Breaker) := by
    simp [recordFailure]
  refine ⟨by simp [recordFailure], by simp [recordFailure], h3, ?_⟩
  rw [h3]
  simp only [isCircuitOpen]
  rw [if_neg (by omega)]

/-- Witness for C4 at concrete failure times 1, 3, 5 and query time 6. -/
theorem circuit_trips_after_three_failures_witness :
    recordFailure 5 (recordFailure 3 (recordFailure 1 ⟨.Closed, 0, 0⟩))
      = (⟨.Open, 0, 5⟩ : Breaker) :=
  (circuit_trips_after_three_failures 0 1 3 5 6 (by decide)).2.2.1

/-- C5 counterexample: in `HalfOpen` with failure counter 0, a single
`recordFailure` does NOT set the state to `Open` (the code only trips once the
counter reaches 3); the state stays `HalfOpen`. -/
theorem halfOpen_single_failure_no_reopen_cex :
    (recordFailure 5 (⟨.HalfOpen, 0, 0⟩ : Breaker)).circuitState ≠ .Open ∧
    recordFailure 5 (⟨.HalfOpen, 0, 0⟩ : Breaker) = ⟨.HalfOpen, 1, 5⟩ := by
  decide

/-- C5 amended: in `HalfOpen`, `isCircuitOpen` returns false and leaves the
state unchanged; the next `recordSuccess` resets the state to `Closed` with
counter 0; the next `recordFailure` increments the counter and restarts the
recovery window (stamps `lastFailureTime`), but sets the state to `Open` only
if the incremented counter reaches 3 — otherwise the state remains
`HalfOpen`. -/
theorem halfOpen_transitions (b : Breaker) (now : Nat)
    (hb : b.circuitState = .HalfOpen) :
    isCircuitOpen now b = (false, b) ∧
    recordSuccess b = ⟨.Closed, 0, b.lastFailureTime⟩ ∧
    (b.failures + 1 < 3 → recordFailure now b = ⟨.HalfOpen, b.failures + 1, now⟩) ∧
    (3 ≤ b.failures + 1 → recordFailure now b = ⟨.Open, 0, now⟩) := by
  obtain ⟨s, f, t⟩ := b
  have hs : s = .HalfOpen := hb
  subst hs
  refine ⟨rfl, rfl, ?_, ?_⟩
  · intro h
    have h' : f + 1 < 3 := h
    simp only [recordFailure]
    rw [if_neg (by omega)]
  · intro h
    have h' : 3 ≤ f + 1 := h
    simp only [recordFailure]
    rw [if_pos (by omega)]

/-- Witness for C5's amended theorem at the concrete breaker
(HalfOpen, 0 failures, last failure at time 0) and time 7. -/
theorem halfOpen_transitions_witness :
    isCircuitOpen 7 (⟨.HalfOpen, 0, 0⟩ : Breaker) = (false, ⟨.HalfOpen, 0, 0⟩) ∧
    recordFailure 7 (⟨.HalfOpen, 0, 0⟩ : Breaker) = ⟨.HalfOpen, 1, 7⟩ :=
  ⟨(halfOpen_transitions ⟨.HalfOpen, 0, 0⟩ 7 rfl).1,
   (halfOpen_transitions ⟨.HalfOpen, 0, 0⟩ 7 rfl).2.2.1 (by decide)⟩

/-- C6 counterexample: with the breaker `Open` since time 0 and the window
elapsed (query time 11), `isCircuitOpen` returns false, and an immediately
repeated call — with no failure recorded in between — returns false AGAIN, so
false is not returned "exactly once per window". -/
theorem open_isOpen_false_twice_cex :
    (isCircuitOpen 11 (⟨.Open, 0, 0⟩ : Breaker)).1 = false ∧
    (isCircuitOpen 11 ((isCircuitOpen 11 (⟨.Open, 0, 0⟩ : Breaker)).2)).1 = false := by
  decide

/-- C6 amended: while `Open`, `isCircuitOpen` returns true for every call made
before the 10-second recovery window has elapsed since the last failure; once
the window elapses, the state transitions to `HalfOpen` and the call returns
false — and every further call while the state stays `HalfOpen` also returns
false (the admission of a single trial request is not enforced). -/
theorem open_window_behavior (b : Breaker) (now : Nat) :
    (b.circuitState = .Open → now ≤ b.lastFailureTime + 10 →
      isCircuitOpen now b = (true, b)) ∧
    (b.circuitState = .Open → b.lastFailureTime + 10 < now →
      isCircuitOpen now b = (false, { b with circuitState := .HalfOpen })) ∧
    (b.circuitState = .HalfOpen → isCircuitOpen now b = (false, b)) := by
  obtain ⟨s, f, t⟩ := b
  refine ⟨?_, ?_, ?_⟩
  · intro h hw
    have hs : s = .Open := h
    subst hs
    have hw' : now ≤ t + 10 := hw
    simp only [isCircuitOpen]
    rw [if_neg (by omega)]
  · intro h hw
    have hs : s = .Open := h
    subst hs
    have hw' : t + 10 < now := hw
    simp only [isCircuitOpen]
    rw [if_pos (by omega)]
  · intro h
    have hs : s = .HalfOpen := h
    subst hs
    rfl

/-- Witness for C6's amended theorem: breaker opened at time 0; at time 5 the
check returns true, at time 11 it transitions to `HalfOpen` returning false,
and in `HalfOpen` the check returns false. -/
theorem open_window_behavior_witness :
    isCircuitOpen 5 (⟨.Open, 0, 0⟩ : Breaker) = (true, ⟨.Open, 0, 0⟩) ∧
    isCircuitOpen 11 (⟨.Open, 0, 0⟩ : Breaker) = (false, ⟨.HalfOpen, 0, 0⟩) ∧
    isCircuitOpen 11 (⟨.HalfOpen, 0, 0⟩ : Breaker) = (false, ⟨.HalfOpen, 0, 0⟩) :=
  ⟨(open_window_behavior ⟨.Open, 0, 0⟩ 5).1 rfl (by decide),
   (open_window_behavior ⟨.Open, 0, 0⟩ 11).2.1 rfl (by decide),
   (open_window_behavior ⟨.HalfOpen, 0, 0⟩ 11).2.2 rfl⟩

/-- C10: from every breaker state — including `Open` — a single
`recordSuccess` stores `Closed` with failure counter 0 (and leaves the last
failure timestamp alone); afterwards `isCircuitOpen` reports false at any
time, so a success recorded while `Open` closes the breaker immediately,
without waiting for the recovery window and without passing through
`HalfOpen`. -/
theorem recordSuccess_closes_from_any_state (b : Breaker) (now : Nat) :
    recordSuccess b = ⟨.Closed, 0, b.lastFailureTime⟩ ∧
    (isCircuitOpen now (recordSuccess b)).1 = false :=
  ⟨rfl, rfl⟩

section OCRBatch

/-- One element of the fan-in channel: the `pageResult` struct declared inside
`extractOCRFromPDF` (src/ocr.go lines 323-327), carrying the page's original
index and its OCR text.  The `err` field is dropped: the collection loop only
reads `index` and `text`. -/
structure PageResult where
  index : Nat
  text : String

/-- The in-place error marker `fmt.Sprintf("[OCR Error: %v]", err)` written at
a failed page's position (src/ocr.go line 355). -/
def ocrErrorMarker (e : String) : String := "[OCR Error: " ++ e ++ "]"

/-- The text a goroutine sends for page `idx` (src/ocr.go lines 352-357):
the OCR result of unit `idx` on success, the error marker on failure.  The
external call `ocrPool.processOCR(imageFiles[idx], language)` is the
collaborator `ocr : Nat → Except String String`, indexed by page number. -/
def pageText (ocr : Nat → Except String String) (idx : Nat) : String :=
  match ocr idx with
  | .ok t => t
  | .error e => ocrErrorMarker e

/-- The `pageResult{index: idx, text: text}` value sent on `resultChan` for
page `idx`. -/
def pageResultOf (ocr : Nat → Except String String) (idx : Nat) : PageResult :=
  ⟨idx, pageText ocr idx⟩

/-- The batch-size computation of `extractOCRFromPDF` (src/ocr.go lines
332-338): `len(imageFiles) / ocrPool.workers`, clamped below by 1 and above
by 4. -/
def computeBatchSize (numFiles workers : Nat) : Nat :=
  let b0 := numFiles / workers
  let b1 := if b0 < 1 then 1 else b0
  if b1 > 4 then 4 else b1

/-- The dispatch loop `for i := 0; i < len(imageFiles); i += batchSize`
(src/ocr.go lines 343-360): each iteration spawns a goroutine handling the
contiguous index range `[i, min (i+batchSize) n)`.  The loop runs at most `n`
iterations when `1 ≤ bs`, so a fuel of `n` is exact. -/
def goroutineBatchesAux (bs n : Nat) : Nat → Nat → List (List Nat)
  | 0, _ => []
  | fuel + 1, i =>
    if i < n then
      List.range' i (min (i + bs) n - i) :: goroutineBatchesAux bs n fuel (i + bs)
    else []

/-- The page-index ranges of all dispatched goroutines, in dispatch order. -/
def goroutineBatches (bs n : Nat) : List (List Nat) :=
  goroutineBatchesAux bs n n 0

/-- The multiset of `pageResult` values that reach `resultChan`: every
dispatched goroutine sends one result per index of its range.  The channel
interleaves the goroutines' sends in an arbitrary completion order, so the
received list is an arbitrary permutation of this list. -/
def dispatchedResults (ocr : Nat → Except String String) (n workers : Nat) :
    List PageResult :=
  (goroutineBatches (computeBatchSize n workers) n).flatten.map (pageResultOf ocr)

/-- One step of the collection loop: `pages[result.index] = result.text`
(src/ocr.go line 368). -/
def writeResult (pages : List String) (r : PageResult) : List String :=
  pages.set r.index r.text

/-- The fan-in collection loop (src/ocr.go lines 366-369): starting from
`pages := make([]string, len(imageFiles))` (`n` empty strings), write each
received result at its original index. -/
def collectPages (n : Nat) (received : List PageResult) : List String :=
  received.foldl writeResult (List.replicate n "")

/-- The value `extractOCRFromPDF` returns once the images exist: the OCR phase
itself never returns an error — it ends with `return pages, nil`
(src/ocr.go line 371). -/
def ocrBatchPhase (n : Nat) (received : List PageResult) :
    Except String (List String) :=
  Except.ok (collectPages n received)

theorem computeBatchSize_pos (numFiles workers : Nat) :
    1 ≤ computeBatchSize numFiles workers := by
  simp only [computeBatchSize]
  split <;> split <;> omega

theorem goroutineBatchesAux_flatten (bs n : Nat) (hbs : 1 ≤ bs) :
    ∀ fuel i, n ≤ i + fuel →
      (goroutineBatchesAux bs n fuel i).flatten = List.range' i (n - i) := by
  intro fuel
  induction fuel with
  | zero =>
    intro i hi
    rw [show n - i = 0 by omega]
    rfl
  | succ fuel ih =>
    intro i hi
    by_cases hin : i < n
    · rw [goroutineBatchesAux, if_pos hin, List.flatten_cons,
        ih (i + bs) (by omega)]
      by_cases hbn : i + bs ≤ n
      · rw [show min (i + bs) n - i = bs by omega]
        rw [List.range'_append_1]
        congr 1
        omega
      · rw [show min (i + bs) n - i = n - i by omega,
          show n - (i + bs) = 0 by omega]
        simp
    · rw [goroutineBatchesAux, if_neg hin,
        show n - i = 0 by omega]
      rfl

theorem dispatchedResults_eq (ocr : Nat → Except String String)
    (n workers : Nat) :
    dispatchedResults ocr n workers = (List.range n).map (pageResultOf ocr) := by
  unfold dispatchedResults goroutineBatches
  rw [goroutineBatchesAux_flatten _ _ (computeBatchSize_pos n workers) n 0
    (by omega)]
  rw [Nat.sub_zero, ← List.range_eq_range']

theorem collectPages_foldl_length (rs : List PageResult) (init : List String) :
    (rs.foldl writeResult init).length = init.length := by
  induction rs generalizing init with
  | nil => rfl
  | cons r rest ih =>
    rw [List.foldl_cons, ih]
    exact List.length_set ..

theorem collectPages_foldl_get_not_mem (rs : List PageResult)
    (init : List String) (j : Nat) (hj : ∀ r ∈ rs, r.index ≠ j) :
    (rs.foldl writeResult init)[j]? = init[j]? := by
  induction rs generalizing init with
  | nil => rfl
  | cons r rest ih =>
    rw [List.foldl_cons,
      ih _ (fun r' hr' => hj r' (List.mem_cons_of_mem r hr'))]
    exact List.getElem?_set_ne (hj r (List.mem_cons_self r rest))

theorem collectPages_foldl_get_mem (rs : List PageResult) (v : String)
    (j : Nat) :
    ∀ init : List String, j < init.length →
      (∃ r ∈ rs, r.index = j) → (∀ r ∈ rs, r.index = j → r.text = v) →
      (rs.foldl writeResult init)[j]? = some v := by
  induction rs with
  | nil =>
    intro init _ hmem _
    obtain ⟨r, hr, _⟩ := hmem
    exact absurd hr (List.not_mem_nil r)
  | cons r rest ih =>
    intro init hlen hmem hval
    rw [List.foldl_cons]
    by_cases hrest : ∃ r' ∈ rest, r'.index = j
    · exact ih _ (by rw [writeResult, List.length_set]; exact hlen) hrest
        (fun r' hr' => hval r' (List.mem_cons_of_mem r hr'))
    · have hr : r.index = j := by
        obtain ⟨r', hr', hidx⟩ := hmem
        rcases List.mem_cons.mp hr' with h | h
        · rw [← h]; exact hidx
        · exact absurd ⟨r', h, hidx⟩ hrest
      have hv : r.text = v := hval r (List.mem_cons_self r rest) hr
      rw [collectPages_foldl_get_not_mem rest _ j
        (fun r' hr' hidx => hrest ⟨r', hr', hidx⟩)]
      rw [writeResult, hr, hv]
      exact List.getElem?_set_self hlen

/-- Core fan-in lemma: for ANY completion order — any permutation `received`
of the dispatched results — the collection loop reconstructs the pages in
original index order. -/
theorem collectPages_of_perm (ocr : Nat → Except String String) (n : Nat)
    (received : List PageResult)
    (hperm : received.Perm ((List.range n).map (pageResultOf ocr))) :
    collectPages n received = (List.range n).map (pageText ocr) := by
  have hmem_iff : ∀ r, r ∈ received ↔ r ∈ (List.range n).map (pageResultOf ocr) :=
    fun r => hperm.mem_iff
  apply List.ext_getElem?
  intro j
  simp only [collectPages]
  by_cases hj : j < n
  · have hm : pageResultOf ocr j ∈ received := by
      rw [hmem_iff]
      exact List.mem_map_of_mem _ (List.mem_range.mpr hj)
    have hval : ∀ r ∈ received, r.index = j → r.text = pageText ocr j := by
      intro r hr hidx
      have hr2 := (hmem_iff r).mp hr
      obtain ⟨i, _, hri⟩ := List.mem_map.mp hr2
      rw [← hri] at hidx ⊢
      simp only [pageResultOf] at hidx ⊢
      rw [hidx]
    rw [collectPages_foldl_get_mem received (pageText ocr j) j
      (List.replicate n "")
      (by rw [List.length_replicate]; exact hj)
      ⟨pageResultOf ocr j, hm, rfl⟩ hval]
    rw [List.getElem?_map, List.getElem?_range hj]
    rfl
  · rw [List.getElem?_eq_none
      (by rw [collectPages_foldl_length, List.length_replicate]; omega)]
    rw [List.getElem?_eq_none
      (by rw [List.length_map, List.length_range]; omega)]

end OCRBatch

/-- C1: for every batch of `n` page images and every ordering of unit
completion times (every permutation `received` of the results the dispatched
goroutines send on `resultChan`), the OCR batch executor's collection loop
returns a sequence of `n` texts whose entry `i` is the OCR result of input
image `i` — positions are independent of which goroutine finished first. -/
theorem extractOCRFromPDF_output_ordered (ocr : Nat → Except String String)
    (n workers : Nat) (received : List PageResult)
    (hperm : received.Perm (dispatchedResults ocr n workers)) :
    collectPages n received = (List.range n).map (pageText ocr) := by
  apply collectPages_of_perm
  rwa [dispatchedResults_eq] at hperm

/-- The all-successful OCR collaborator used by the C1 witness. -/
def ocrUnitsOk : Nat → Except String String := fun i => Except.ok (Nat.repr i)

/-- Witness for C1: three pages, two pool workers, results received in
reversed completion order. -/
theorem extractOCRFromPDF_output_ordered_witness :
    collectPages 3 (dispatchedResults ocrUnitsOk 3 2).reverse
      = (List.range 3).map (pageText ocrUnitsOk) :=
  extractOCRFromPDF_output_ordered ocrUnitsOk 3 2 _
    (List.reverse_perm (dispatchedResults ocrUnitsOk 3 2))

/-- C2: for every OCR batch of `n` units in which unit `k` fails, the batch
still returns `n` entries (the phase result is `Except.ok`, never an error):
position `k` holds the error-marker text, and every successful unit's
position holds its real OCR text — a single unit failure never aborts the
batch. -/
theorem extractOCRFromPDF_failure_isolated (ocr : Nat → Except String String)
    (n workers k : Nat) (e : String) (received : List PageResult)
    (hperm : received.Perm (dispatchedResults ocr n workers))
    (hk : k < n) (hfail : ocr k = Except.error e) :
    ocrBatchPhase n received = Except.ok (collectPages n received) ∧
    (collectPages n received).length = n ∧
    (collectPages n received)[k]? = some (ocrErrorMarker e) ∧
    ∀ j t, j < n → ocr j = Except.ok t →
      (collectPages n received)[j]? = some t := by
  have hc := collectPages_of_perm ocr n received
    (by rwa [dispatchedResults_eq] at hperm)
  refine ⟨rfl, ?_, ?_, ?_⟩
  · rw [hc, List.length_map, List.length_range]
  · rw [hc, List.getElem?_map, List.getElem?_range hk]
    simp [pageText, hfail]
  · intro j t hjn hok
    rw [hc, List.getElem?_map, List.getElem?_range hjn]
    simp [pageText, hok]

/-- OCR collaborator for the C2 witness: a batch of 5 units where unit #3
(index 2) fails and every other unit returns its real text. -/
def ocrUnitsOneFail : Nat → Except String String :=
  fun i => if i = 2 then Except.error "tesseract failed" else
    Except.ok ("page" ++ Nat.repr i)

/-- Witness for C2: 5 OCR units, unit #3 fails — the output has 5 entries,
entry #3 is the error-marker string, and entry #2 holds its real text. -/
theorem extractOCRFromPDF_failure_isolated_witness :
    (collectPages 5 (dispatchedResults ocrUnitsOneFail 5 2)).length = 5 ∧
    (collectPages 5 (dispatchedResults ocrUnitsOneFail 5 2))[2]?
      = some (ocrErrorMarker "tesseract failed") ∧
    (collectPages 5 (dispatchedResults ocrUnitsOneFail 5 2))[1]?
      = some "page1" :=
  have h := extractOCRFromPDF_failure_isolated ocrUnitsOneFail 5 2 2
    "tesseract failed" _ (List.Perm.refl _) (by decide) rfl
  ⟨h.2.1, h.2.2.1, h.2.2.2 1 "page1" (by decide) rfl⟩

section SummaryBatch

/-- Embeds `generateChunkSummary` (src/summary.go lines 153-205).  The
OpenRouter API-key lookup, prompt construction and HTTP call are the external
LLM collaborator `call chunkIndex chunk`; on failure the Go code wraps the
error as `"failed to generate summary for chunk %d: %v"` with the 1-based
chunk number, and on success it returns `strings.TrimSpace(summary)`. -/
def generateChunkSummary (call : Nat → String → Except String String)
    (chunk : String) (chunkIndex totalChunks : Nat) : Except String String :=
  match call chunkIndex chunk with
  | .error e =>
    .error ("failed to generate summary for chunk "
      ++ Nat.repr (chunkIndex + 1) ++ ": " ++ e)
  | .ok summary => .ok summary.trim

/-- The chunk loop of `generateLevelSummary` (src/summary.go lines 216-225):
iterate the chunks in order, calling `generateChunkSummary` for each; the
FIRST failing chunk makes the whole loop return that error immediately
(`return "", err`), discarding all summaries gathered so far; otherwise
append the summary and continue. -/
def summarizeChunksFrom (call : Nat → String → Except String String)
    (total : Nat) : Nat → List String → Except String (List String)
  | _, [] => .ok []
  | i, chunk :: rest =>
    match generateChunkSummary call chunk i total with
    | .error e => .error e
    | .ok s =>
      match summarizeChunksFrom call total (i + 1) rest with
      | .error e => .error e
      | .ok ss => .ok (s :: ss)

/-- Embeds `generateLevelSummary` (src/summary.go lines 207-239) after the
chunking step (`chunkTextByPages`, a spec non-goal, supplies `chunks`): run
the chunk loop; on success, a single summary is returned as-is, and several
summaries are joined with `"\n\n"` and passed to the external final-summary
collaborator `finalize` (`generateFinalSummaryForLevel`). -/
def generateLevelSummary (call : Nat → String → Except String String)
    (finalize : String → Except String String) (chunks : List String) :
    Except String String :=
  match summarizeChunksFrom call chunks.length 0 chunks with
  | .error e => .error e
  | .ok summaries =>
    match summaries with
    | [s] => .ok s
    | _ => finalize (String.intercalate "\n\n" summaries)

theorem summarizeChunksFrom_first_error
    (call : Nat → String → Except String String) (total : Nat) :
    ∀ (l : List String) (i k : Nat) (hk : k < l.length) (e : String),
      call (i + k) (l.get ⟨k, hk⟩) = .error e →
      (∀ j (hj : j < k), ∃ s, call (i + j) (l.get ⟨j, by omega⟩) = .ok s) →
      summarizeChunksFrom call total i l
        = .error ("failed to generate summary for chunk "
            ++ Nat.repr (i + k + 1) ++ ": " ++ e) := by
  intro l
  induction l with
  | nil =>
    intro i k hk
    exact absurd hk (by simp)
  | cons chunk rest ih =>
    intro i k hk e hfail hbefore
    match k with
    | 0 =>
      simp only [List.get] at hfail
      rw [summarizeChunksFrom, generateChunkSummary,
        show i + 0 = i by omega] at *
      rw [hfail]
    | k' + 1 =>
      obtain ⟨s0, hs0⟩ := hbefore 0 (by omega)
      simp only [List.get] at hs0
      rw [show i + 0 = i by omega] at hs0
      rw [summarizeChunksFrom, generateChunkSummary, hs0]
      have hrest := ih (i + 1) k' (by simpa using hk) e
        (by rw [show i + 1 + k' = i + (k' + 1) by omega]; exact hfail)
        (fun j hj => by
          obtain ⟨s, hs⟩ := hbefore (j + 1) (by omega)
          exact ⟨s, by rw [show i + 1 + j = i + (j + 1) by omega]; exact hs⟩)
      rw [hrest]
      rw [show i + 1 + k' = i + (k' + 1) by omega]

end SummaryBatch

/-- C3: for every summarization batch of chunks, if the chunk at position `k`
fails while every earlier chunk succeeds, `generateLevelSummary` returns
exactly that chunk's (wrapped) error and no partial list of summaries —
first-error-wins, the batch is aborted at the first failing chunk. -/
theorem generateLevelSummary_first_error_aborts
    (call : Nat → String → Except String String)
    (finalize : String → Except String String) (chunks : List String)
    (k : Nat) (hk : k < chunks.length) (e : String)
    (hfail : call k (chunks.get ⟨k, hk⟩) = .error e)
    (hbefore : ∀ j (hj : j < k), ∃ s, call j (chunks.get ⟨j, by omega⟩) = .ok s) :
    generateLevelSummary call finalize chunks
      = .error ("failed to generate summary for chunk "
          ++ Nat.repr (k + 1) ++ ": " ++ e) := by
  have h := summarizeChunksFrom_first_error call chunks.length chunks 0 k hk e
    (by simpa using hfail) (fun j hj => by simpa using hbefore j hj)
  rw [generateLevelSummary, h]
  simp

/-- LLM collaborator for the C3 witness: a batch of 5 chunks where chunk #3
(index 2) fails and earlier chunks succeed. -/
def summaryUnitsOneFail : Nat → String → Except String String :=
  fun i c => if i = 2 then Except.error "model overloaded" else
    Except.ok ("summary of " ++ c)

/-- Witness for C3: batch of 5 chunks, chunk #3 fails — `generateLevelSummary`
returns the wrapped error of chunk 3 and no summary list. -/
theorem generateLevelSummary_first_error_aborts_witness :
    generateLevelSummary summaryUnitsOneFail
        (fun s => Except.ok s) ["c0", "c1", "c2", "c3", "c4"]
      = .error ("failed to generate summary for chunk "
          ++ Nat.repr 3 ++ ": " ++ "model overloaded") :=
  generateLevelSummary_first_error_aborts summaryUnitsOneFail
    (fun s => Except.ok s) ["c0", "c1", "c2", "c3", "c4"] 2 (by decide)
    "model overloaded" rfl
    (fun j hj => by
      interval_cases j
      · exact ⟨"summary of " ++ "c0", rfl⟩
      · exact ⟨"summary of " ++ "c1", rfl⟩)

section JobQueue

/-- Job status values written to `OCRJobRequest.Status` in the async job file:
`"pending"`, `"processing"`, `"completed"`, `"failed"`. -/
inductive JobStatus where
  | pending
  | processing
  | completed
  | failed
deriving DecidableEq

/-- The essentials of the `*OCRResponse` stored into `job.Result` by
`processJob`: its `Success` flag (which also decides completed vs failed) and
its text payload. -/
structure JobResult where
  success : Bool
  text : String
deriving DecidableEq

/-- The `OCRJobRequest` record (async job file lines 35-47), restricted to the
fields the claims read: `Status`, `Result`, `Created`, `Started`, `Finished`.
The request payload (`FileData`, `FileType`, `Language`, `TmpDir`) only flows
into the external OCR collaborator and is omitted. -/
structure JobRecord where
  status : JobStatus
  result : Option JobResult
  created : Nat
  started : Option Nat
  finished : Option Nat
deriving DecidableEq

/-- Go map read `q.jobs[jobID]` over an association-list model of the map
(each key bound at most once). -/
def lookupJob : List (String × JobRecord) → String → Option JobRecord
  | [], _ => none
  | (k, v) :: rest, id => if k = id then some v else lookupJob rest id

/-- Go map write `q.jobs[jobID] = job`: replace the existing binding or add a
new one. -/
def mapInsert : List (String × JobRecord) → String → JobRecord →
    List (String × JobRecord)
  | [], id, j => [(id, j)]
  | (k, v) :: rest, id, j =>
    if k = id then (id, j) :: rest else (k, v) :: mapInsert rest id j

/-- Go map `delete(q.jobs, jobID)`: drop the binding for the key. -/
def mapDelete : List (String × JobRecord) → String → List (String × JobRecord)
  | [], _ => []
  | (k, v) :: rest, id => if k = id then rest else (k, v) :: mapDelete rest id

/-- The `OCRJobQueue` state (async job file lines 49-54): the job map, the
buffered `pending` channel's current contents, and that channel's buffer
capacity (50 in `initJobQueue`). -/
structure OCRJobQueue where
  jobs : List (String × JobRecord)
  pending : List String
  capacity : Nat
deriving DecidableEq

/-- Embeds `submitJob` (async job file lines 200-229) with the generated
random identifier passed in as `newId`: store a `pending` Job record under
the fresh id, then try a non-blocking send of the id on the `pending`
channel (`select`/`default`, which succeeds exactly when the buffer has
room); on a full channel delete the record and return no id (Go returns
`""`). -/
def submitJob (q : OCRJobQueue) (newId : String) (now : Nat) :
    Option String × OCRJobQueue :=
  let job : JobRecord := ⟨.pending, none, now, none, none⟩
  let jobs1 := mapInsert q.jobs newId job
  if q.pending.length < q.capacity then
    (some newId, ⟨jobs1, q.pending ++ [newId], q.capacity⟩)
  else
    (none, ⟨mapDelete jobs1 newId, q.pending, q.capacity⟩)

/-- What `getJobStatus` reports to the poller. -/
inductive StatusView where
  | notFound
  | inProgress (status : JobStatus)
  | done (r : JobResult)
deriving DecidableEq

/-- Embeds `getJobStatus` (async job file lines 231-258): a pure read — an
unknown id reports `not_found`; a job with a stored `Result` reports that
result; otherwise the job's current status is reported. -/
def getJobStatus (q : OCRJobQueue) (id : String) : StatusView :=
  match lookupJob q.jobs id with
  | none => .notFound
  | some j =>
    match j.result with
    | some r => .done r
    | none => .inProgress j.status

/-- Small-step semantics of the job-queue system.  `submitOk`/`submitFull`
are `submitJob`'s two outcomes (the generated id is fresh); `start` is the
first half of `processJob` (a worker dequeues an id from the channel and
flips the job to `processing`, stamping `Started`); `startMissing` is
`processJob`'s early return when the dequeued id is absent from the map;
`finish` is the second half of `processJob` (the claiming worker — the only
writer of the job, hence the `processing` precondition — stores the result
and flips the status to `completed`, or `failed` when `result.Success` is
false, stamping `Finished`).  `getJobStatus` reads the state without
stepping it. -/
inductive JobStep : OCRJobQueue → OCRJobQueue → Prop where
  | submitOk (q : OCRJobQueue) (id : String) (now : Nat)
      (hfresh : lookupJob q.jobs id = none)
      (hroom : q.pending.length < q.capacity) :
      JobStep q ⟨mapInsert q.jobs id ⟨.pending, none, now, none, none⟩,
        q.pending ++ [id], q.capacity⟩
  | submitFull (q : OCRJobQueue) (id : String) (now : Nat)
      (hfresh : lookupJob q.jobs id = none)
      (hfull : ¬ q.pending.length < q.capacity) :
      JobStep q
        ⟨mapDelete (mapInsert q.jobs id ⟨.pending, none, now, none, none⟩) id,
          q.pending, q.capacity⟩
  | start (q : OCRJobQueue) (id : String) (j : JobRecord) (now : Nat)
      (l₁ l₂ : List String)
      (hpend : q.pending = l₁ ++ id :: l₂)
      (hjob : lookupJob q.jobs id = some j) :
      JobStep q ⟨mapInsert q.jobs id
          { j with status := .processing, started := some now },
        l₁ ++ l₂, q.capacity⟩
  | startMissing (q : OCRJobQueue) (id : String) (l₁ l₂ : List String)
      (hpend : q.pending = l₁ ++ id :: l₂)
      (hjob : lookupJob q.jobs id = none) :
      JobStep q ⟨q.jobs, l₁ ++ l₂, q.capacity⟩
  | finish (q : OCRJobQueue) (id : String) (j : JobRecord) (res : JobResult)
      (now : Nat)
      (hjob : lookupJob q.jobs id = some j)
      (hproc : j.status = .processing) :
      JobStep q ⟨mapInsert q.jobs id
          { j with
            status := (if res.success then .completed else .failed)
            result := some res
            finished := some now },
        q.pending, q.capacity⟩

/-- Reflexive-transitive closure of the job-queue steps. -/
def JobSteps : OCRJobQueue → OCRJobQueue → Prop :=
  Relation.ReflTransGen JobStep

/-- Well-formedness maintained by the queue: ids in the channel are distinct,
and every id waiting in the channel is bound in the map with status
`pending`. -/
def queueWF (q : OCRJobQueue) : Prop :=
  q.pending.Nodup ∧
  ∀ id ∈ q.pending, ∃ j, lookupJob q.jobs id = some j ∧ j.status = .pending

/-- A status from which the spec says no transition leaves. -/
def terminalStatus (s : JobStatus) : Prop := s = .completed ∨ s = .failed

/-- Allowed edges of the spec's per-job state machine
`pending → processing → {completed, failed}` (reflexive for "no change"). -/
def statusEdge (s s' : JobStatus) : Prop :=
  s = s' ∨ (s = .pending ∧ s' = .processing) ∨
    (s = .processing ∧ (s' = .completed ∨ s' = .failed))

theorem lookupJob_mapInsert_self (m : List (String × JobRecord)) (id : String)
    (j : JobRecord) : lookupJob (mapInsert m id j) id = some j := by
  induction m with
  | nil => simp [mapInsert, lookupJob]
  | cons p rest ih =>
    obtain ⟨k, v⟩ := p
    by_cases hk : k = id
    · simp [mapInsert, lookupJob, hk]
    · simp [mapInsert, lookupJob, hk, ih]

theorem lookupJob_mapInsert_ne (m : List (String × JobRecord))
    (id id' : String) (j : JobRecord) (h : id' ≠ id) :
    lookupJob (mapInsert m id j) id' = lookupJob m id' := by
  induction m with
  | nil =>
    have h2 : ¬ id = id' := fun he => h he.symm
    simp [mapInsert, lookupJob, h2]
  | cons p rest ih =>
    obtain ⟨k, v⟩ := p
    by_cases hk : k = id
    · subst hk
      have : ¬ k = id' := fun he => h he.symm
      simp [mapInsert, lookupJob, this]
    · simp [mapInsert, lookupJob, hk, ih]

theorem mapDelete_mapInsert_fresh (m : List (String × JobRecord))
    (id : String) (j : JobRecord) (hfresh : lookupJob m id = none) :
    mapDelete (mapInsert m id j) id = m := by
  induction m with
  | nil => simp [mapInsert, mapDelete]
  | cons p rest ih =>
    obtain ⟨k, v⟩ := p
    simp only [lookupJob] at hfresh
    by_cases hk : k = id
    · rw [if_pos hk] at hfresh
      cases hfresh
    · rw [if_neg hk] at hfresh
      simp [mapInsert, mapDelete, hk, ih hfresh]

end JobQueue

theorem queueWF_step {q q' : OCRJobQueue} (hwf : queueWF q)
    (hstep : JobStep q q') : queueWF q' := by
  obtain ⟨hnd, hpend⟩ := hwf
  cases hstep with
  | submitOk id now hfresh hroom =>
    have hidnot : id ∉ q.pending := by
      intro hmem
      obtain ⟨j, hj, _⟩ := hpend id hmem
      rw [hfresh] at hj
      cases hj
    refine ⟨?_, ?_⟩ <;> dsimp only
    · rw [List.nodup_append]
      refine ⟨hnd, List.nodup_singleton id, ?_⟩
      intro a ha hb
      rw [List.mem_singleton] at hb
      subst hb
      exact hidnot ha
    · intro id' hid'
      rcases List.mem_append.mp hid' with h | h
      · obtain ⟨j, hj, hjs⟩ := hpend id' h
        have hne : id' ≠ id := by
          intro he
          subst he
          rw [hfresh] at hj
          cases hj
        exact ⟨j, by rw [lookupJob_mapInsert_ne _ _ _ _ hne]; exact hj, hjs⟩
      · rw [List.mem_singleton] at h
        subst h
        exact ⟨_, lookupJob_mapInsert_self q.jobs id' _, rfl⟩
  | submitFull id now hfresh hfull =>
    refine ⟨?_, ?_⟩ <;> dsimp only
    · exact hnd
    · rw [mapDelete_mapInsert_fresh _ _ _ hfresh]
      exact hpend
  | start id j now l₁ l₂ hpendEq hjob =>
    have hnd' : (l₁ ++ id :: l₂).Nodup := hpendEq ▸ hnd
    have hmid := List.nodup_middle.mp hnd'
    rw [List.nodup_cons] at hmid
    refine ⟨?_, ?_⟩ <;> dsimp only
    · exact hmid.2
    · intro id' hid'
      have hid'p : id' ∈ q.pending := by
        rw [hpendEq]
        rcases List.mem_append.mp hid' with h | h
        · exact List.mem_append_left _ h
        · exact List.mem_append_right _ (List.mem_cons_of_mem _ h)
      obtain ⟨j', hj', hjs'⟩ := hpend id' hid'p
      have hne : id' ≠ id := by
        intro he
        subst he
        exact hmid.1 hid'
      exact ⟨j', by rw [lookupJob_mapInsert_ne _ _ _ _ hne]; exact hj', hjs'⟩
  | startMissing id l₁ l₂ hpendEq hjob =>
    have hnd' : (l₁ ++ id :: l₂).Nodup := hpendEq ▸ hnd
    have hmid := List.nodup_middle.mp hnd'
    rw [List.nodup_cons] at hmid
    refine ⟨?_, ?_⟩ <;> dsimp only
    · exact hmid.2
    · intro id' hid'
      have hid'p : id' ∈ q.pending := by
        rw [hpendEq]
        rcases List.mem_append.mp hid' with h | h
        · exact List.mem_append_left _ h
        · exact List.mem_append_right _ (List.mem_cons_of_mem _ h)
      exact hpend id' hid'p
  | finish id j res now hjob hproc =>
    refine ⟨hnd, ?_⟩
    dsimp only
    intro id' hid'
    obtain ⟨j', hj', hjs'⟩ := hpend id' hid'
    have hne : id' ≠ id := by
      intro he
      subst he
      rw [hjob] at hj'
      injection hj' with hj2
      rw [← hj2] at hjs'
      rw [hproc] at hjs'
      simp at hjs'
    exact ⟨j', by rw [lookupJob_mapInsert_ne _ _ _ _ hne]; exact hj', hjs'⟩

theorem lookup_preserved_of_terminal {q q' : OCRJobQueue} (hwf : queueWF q)
    (hstep : JobStep q q') (id : String) (j : JobRecord)
    (hj : lookupJob q.jobs id = some j) (hterm : terminalStatus j.status) :
    lookupJob q'.jobs id = some j := by
  obtain ⟨hnd, hpend⟩ := hwf
  cases hstep with
  | submitOk id0 now hfresh hroom =>
    dsimp only
    have hne : id ≠ id0 := by
      intro he
      subst he
      rw [hfresh] at hj
      cases hj
    rw [lookupJob_mapInsert_ne _ _ _ _ hne]
    exact hj
  | submitFull id0 now hfresh hfull =>
    dsimp only
    rw [mapDelete_mapInsert_fresh _ _ _ hfresh]
    exact hj
  | start id0 j0 now l₁ l₂ hpendEq hjob =>
    dsimp only
    have hne : id ≠ id0 := by
      intro he
      subst he
      obtain ⟨j2, hj2, hj2s⟩ := hpend id (by
        rw [hpendEq]
        exact List.mem_append_right _ (List.mem_cons_self _ _))
      rw [hj] at hj2
      injection hj2 with he2
      rw [← he2] at hj2s
      rcases hterm with ht | ht <;> rw [ht] at hj2s <;> simp at hj2s
    rw [lookupJob_mapInsert_ne _ _ _ _ hne]
    exact hj
  | startMissing id0 l₁ l₂ hpendEq hjob =>
    exact hj
  | finish id0 j0 res now hjob hproc =>
    dsimp only
    have hne : id ≠ id0 := by
      intro he
      subst he
      rw [hjob] at hj
      injection hj with he2
      rw [he2] at hproc
      rcases hterm with ht | ht <;> rw [ht] at hproc <;> simp at hproc
    rw [lookupJob_mapInsert_ne _ _ _ _ hne]
    exact hj

theorem queueWF_steps {q q' : OCRJobQueue} (hwf : queueWF q)
    (hsteps : JobSteps q q') : queueWF q' := by
  induction hsteps with
  | refl => exact hwf
  | tail hab hbc ih => exact queueWF_step ih hbc

theorem lookup_preserved_of_terminal_steps {q q' : OCRJobQueue}
    (hwf : queueWF q) (hsteps : JobSteps q q') (id : String) (j : JobRecord)
    (hj : lookupJob q.jobs id = some j) (hterm : terminalStatus j.status) :
    lookupJob q'.jobs id = some j := by
  induction hsteps with
  | refl => exact hj
  | tail hab hbc ih =>
    exact lookup_preserved_of_terminal (queueWF_steps hwf hab) hbc id j ih hterm

theorem step_status_edge {q q' : OCRJobQueue} (hwf : queueWF q)
    (hstep : JobStep q q') (id : String) (j j' : JobRecord)
    (hj : lookupJob q.jobs id = some j)
    (hj' : lookupJob q'.jobs id = some j') :
    statusEdge j.status j'.status := by
  obtain ⟨hnd, hpend⟩ := hwf
  cases hstep with
  | submitOk id0 now hfresh hroom =>
    dsimp only at hj'
    have hne : id ≠ id0 := by
      intro he
      subst he
      rw [hfresh] at hj
      cases hj
    rw [lookupJob_mapInsert_ne _ _ _ _ hne, hj] at hj'
    injection hj' with he2
    rw [he2]
    exact Or.inl rfl
  | submitFull id0 now hfresh hfull =>
    dsimp only at hj'
    rw [mapDelete_mapInsert_fresh _ _ _ hfresh, hj] at hj'
    injection hj' with he2
    rw [he2]
    exact Or.inl rfl
  | start id0 j0 now l₁ l₂ hpendEq hjob =>
    dsimp only at hj'
    by_cases he : id = id0
    · subst he
      obtain ⟨j2, hj2, hj2s⟩ := hpend id (by
        rw [hpendEq]
        exact List.mem_append_right _ (List.mem_cons_self _ _))
      rw [hj] at hj2
      injection hj2 with he2
      rw [lookupJob_mapInsert_self] at hj'
      injection hj' with he3
      rw [← he3]
      rw [← he2] at hj2s
      exact Or.inr (Or.inl ⟨hj2s, rfl⟩)
    · rw [lookupJob_mapInsert_ne _ _ _ _ he, hj] at hj'
      injection hj' with he2
      rw [he2]
      exact Or.inl rfl
  | startMissing id0 l₁ l₂ hpendEq hjob =>
    dsimp only at hj'
    rw [hj] at hj'
    injection hj' with he2
    rw [he2]
    exact Or.inl rfl
  | finish id0 j0 res now hjob hproc =>
    dsimp only at hj'
    by_cases he : id = id0
    · subst he
      rw [lookupJob_mapInsert_self] at hj'
      injection hj' with he3
      rw [← he3]
      rw [hjob] at hj
      injection hj with he2
      refine Or.inr (Or.inr ⟨by rw [← he2]; exact hproc, ?_⟩)
      cases hres : res.success <;> simp [hres]
    · rw [lookupJob_mapInsert_ne _ _ _ _ he, hj] at hj'
      injection hj' with he2
      rw [he2]
      exact Or.inl rfl

/-- C7: when the pending channel is full, `submitJob` with a fresh generated
id returns no job id, the provisionally stored record is deleted so the job
map is exactly what it was before the call, and the generated id is not
resolvable afterwards: `getJobStatus` reports not-found for it. -/
theorem submitJob_queue_full_rejected (q : OCRJobQueue) (newId : String)
    (now : Nat) (hfresh : lookupJob q.jobs newId = none)
    (hfull : ¬ q.pending.length < q.capacity) :
    (submitJob q newId now).1 = none ∧
    (submitJob q newId now).2 = q ∧
    getJobStatus (submitJob q newId now).2 newId = .notFound := by
  have hdel := mapDelete_mapInsert_fresh q.jobs newId
    ⟨.pending, none, now, none, none⟩ hfresh
  simp only [submitJob, if_neg hfull]
  refine ⟨trivial, ?_, ?_⟩
  · rw [hdel]
  · simp only [getJobStatus]
    rw [hdel, hfresh]

/-- Witness for C7: an empty queue with capacity 0 (channel full), submitting
fresh id "ab" at time 5. -/
theorem submitJob_queue_full_rejected_witness :
    (submitJob ⟨[], [], 0⟩ "ab" 5).1 = none ∧
    getJobStatus (submitJob ⟨[], [], 0⟩ "ab" 5).2 "ab" = .notFound :=
  have h := submitJob_queue_full_rejected ⟨[], [], 0⟩ "ab" 5 rfl (by decide)
  ⟨h.1, h.2.2⟩

/-- C9: under the queue's well-formedness invariant, (a) every single step
moves every job's status only along the state machine
`pending → processing → {completed, failed}` (or leaves it unchanged), and
(b) terminal states are final: once a job's record has status `completed` or
`failed`, after any sequence of steps `getJobStatus` for that id reports
exactly what it reported before — same terminal status and same stored
result. -/
theorem job_state_machine_and_terminal_final (q : OCRJobQueue)
    (hwf : queueWF q) :
    (∀ q', JobStep q q' → ∀ id j j',
      lookupJob q.jobs id = some j → lookupJob q'.jobs id = some j' →
      statusEdge j.status j'.status) ∧
    (∀ q' id j, JobSteps q q' → lookupJob q.jobs id = some j →
      terminalStatus j.status → getJobStatus q' id = getJobStatus q id) := by
  constructor
  · intro q' hstep id j j' hj hj'
    exact step_status_edge hwf hstep id j j' hj hj'
  · intro q' id j hsteps hj hterm
    have h' := lookup_preserved_of_terminal_steps hwf hsteps id j hj hterm
    simp only [getJobStatus, hj, h']

/-- The concrete queue for the C9 witness: job "a" finished (failed, with a
stored result), empty channel of capacity 1. -/
def jqWitness : OCRJobQueue :=
  ⟨[("a", ⟨.failed, some ⟨false, "tesseract failed"⟩, 0, some 1, some 2⟩)],
    [], 1⟩

/-- The C9 witness's successor state: a fresh job "b" has been submitted. -/
def jqWitnessNext : OCRJobQueue :=
  ⟨mapInsert jqWitness.jobs "b" ⟨.pending, none, 3, none, none⟩,
    jqWitness.pending ++ ["b"], jqWitness.capacity⟩

/-- Witness for C9: job "a" is terminal in `jqWitness`; after the submission
step producing `jqWitnessNext`, polling "a" reports the same thing. -/
theorem job_state_machine_and_terminal_final_witness :
    getJobStatus jqWitnessNext "a" = getJobStatus jqWitness "a" :=
  (job_state_machine_and_terminal_final jqWitness
      ⟨List.nodup_nil, fun id h => absurd h (List.not_mem_nil id)⟩).2
    jqWitnessNext "a"
    ⟨.failed, some ⟨false, "tesseract failed"⟩, 0, some 1, some 2⟩
    (Relation.ReflTransGen.single
      (JobStep.submitOk jqWitness "b" 3 rfl (by decide)))
    rfl (Or.inr rfl)

section Handlers

/-- Outcome of the gate section of the synchronous OCR handler. -/
inductive SyncGateOutcome where
  | circuitRejected
  | loadRejected
  | admitted
deriving DecidableEq

/-- The gate sequence of `handleExtractOCR` (src/ocr.go lines 179-207): the
circuit-breaker check runs first (`isCircuitOpen`, HTTP 503 when true), the
system-load check second (`checkSystemLoad`, HTTP 429 when false), and only
when both admit does the handler begin its work.  `checkSystemLoad`'s verdict
— concurrent-job counter and sampled process memory against their ceilings —
depends on the runtime environment and enters as the collaborator boolean
`loadOK`; the returned breaker is the state after the check's possible
Open-to-HalfOpen transition. -/
def handleExtractOCR (now : Nat) (b : Breaker) (loadOK : Bool) :
    SyncGateOutcome × Breaker :=
  let gate := isCircuitOpen now b
  if gate.1 then (.circuitRejected, gate.2)
  else if !loadOK then (.loadRejected, gate.2)
  else (.admitted, gate.2)

/-- Embeds the submission path of `handleExtractOCRAsync` (async job file
lines 260-309) for a well-formed request.  The Go handler body contains no
call to `isCircuitOpen` and no call to `checkSystemLoad`: after parsing the
request it goes straight to `globalJobQueue.submitJob`.  The process-wide
breaker state and load verdict are parameters here precisely to record that
the handler's result does not consult them. -/
def handleExtractOCRAsync (now : Nat) (b : Breaker) (loadOK : Bool)
    (q : OCRJobQueue) (newId : String) : Option String × OCRJobQueue :=
  submitJob q newId now

end Handlers

/-- C8 counterexample: with the circuit breaker Open and inside its recovery
window (`isCircuitOpen` reports true, so the breaker gate rejects) and the
load check failing as well, `handleExtractOCRAsync` still enqueues the job
and returns its identifier: the asynchronous path enqueues without passing
either gate. -/
theorem async_submit_bypasses_gates_cex :
    (isCircuitOpen 5 (⟨.Open, 0, 0⟩ : Breaker)).1 = true ∧
    (handleExtractOCRAsync 5 ⟨.Open, 0, 0⟩ false ⟨[], [], 50⟩ "ab").1
      = some "ab" := by
  constructor
  · decide
  · rfl

/-- C8 amended: on the synchronous path the circuit-breaker check comes
first and the admission (load) check second — a request reaches the work
phase only when both gates admit it; the asynchronous path, by contrast,
performs neither check: `handleExtractOCRAsync` behaves identically for
every breaker state and load verdict, enqueueing even when a gate would
reject. -/
theorem sync_gates_ordered_async_ungated (now : Nat) (b : Breaker)
    (loadOK : Bool) (q : OCRJobQueue) (newId : String) :
    ((isCircuitOpen now b).1 = true →
      handleExtractOCR now b loadOK
        = (.circuitRejected, (isCircuitOpen now b).2)) ∧
    ((isCircuitOpen now b).1 = false → loadOK = false →
      handleExtractOCR now b loadOK
        = (.loadRejected, (isCircuitOpen now b).2)) ∧
    ((isCircuitOpen now b).1 = false → loadOK = true →
      handleExtractOCR now b loadOK
        = (.admitted, (isCircuitOpen now b).2)) ∧
    (∀ b2 load2, handleExtractOCRAsync now b loadOK q newId
      = handleExtractOCRAsync now b2 load2 q newId) := by
  refine ⟨?_, ?_, ?_, fun b2 load2 => rfl⟩
  · intro h
    simp [handleExtractOCR, h]
  · intro h h2
    simp [handleExtractOCR, h, h2]
  · intro h h2
    simp [handleExtractOCR, h, h2]

/-- Witness for C8's amended theorem: an Open breaker inside its window gets
`circuitRejected` on the sync path; a Closed breaker with a passing load
check gets `admitted`. -/
theorem sync_gates_ordered_async_ungated_witness :
    handleExtractOCR 5 (⟨.Open, 0, 0⟩ : Breaker) true
      = (.circuitRejected, (isCircuitOpen 5 (⟨.Open, 0, 0⟩ : Breaker)).2) ∧
    handleExtractOCR 3 (⟨.Closed, 0, 0⟩ : Breaker) true
      = (.admitted, (isCircuitOpen 3 (⟨.Closed, 0, 0⟩ : Breaker)).2) :=
  ⟨(sync_gates_ordered_async_ungated 5 ⟨.Open, 0, 0⟩ true ⟨[], [], 50⟩
      "ab").1 (by decide),
   (sync_gates_ordered_async_ungated 3 ⟨.Closed, 0, 0⟩ true ⟨[], [], 50⟩
      "ab").2.2.1 (by decide) rfl⟩
